import Mathlib

/-!
Verification of the FP16 adder/multiplier reference models
(`fp16_adder_ref.cpp`, `fp16_mul_ref.cpp`).

The two C++ kernels work on 16-bit patterns with pure integer arithmetic;
they are embedded here as functions on `Nat` (with `Int` where the source
uses signed `int32_t`).  The binary16→binary32 codec used as the oracle
performs only exact float operations (powers of two times dyadic rationals
inside binary32 range), so binary32 values are embedded as their 32-bit
patterns and the conversions as bit-level functions.
-/

set_option maxHeartbeats 4000000
set_option maxRecDepth 8000

namespace FP16

/-- Sign field: `(n >> 15) & 1`. -/
def sgn (n : Nat) : Nat := (n >>> 15) &&& 1

/-- Exponent field: `(n >> 10) & 0x1F`. -/
def expf (n : Nat) : Nat := (n >>> 10) &&& 0x1F

/-- Fraction field: `n & 0x3FF`. -/
def fracf (n : Nat) : Nat := n &&& 0x3FF

/-- `(e == 31) && (f == 0)` : infinity class. -/
def is_inf (n : Nat) : Prop := expf n = 31 ∧ fracf n = 0

/-- `(e == 31) && (f != 0)` : NaN class. -/
def is_nan (n : Nat) : Prop := expf n = 31 ∧ fracf n ≠ 0

/-- `(e == 0) && (f == 0)` : zero class. -/
def is_zero (n : Nat) : Prop := expf n = 0 ∧ fracf n = 0

instance (n : Nat) : Decidable (is_inf n) := by unfold is_inf; infer_instance

instance (n : Nat) : Decidable (is_nan n) := by unfold is_nan; infer_instance

instance (n : Nat) : Decidable (is_zero n) := by unfold is_zero; infer_instance

/-- `exp = (e == 0) ? 1 : e` — denormal treated as exponent 1. -/
def adjExp (n : Nat) : Nat := if expf n = 0 then 1 else expf n

/-- `mant = (e == 0) ? f : (f | 1024)` — 11-bit significand with hidden bit. -/
def mant (n : Nat) : Nat := if expf n = 0 then fracf n else fracf n ||| 1024

/-- Result record of the adder (`struct FP16Result`). -/
structure FP16Result where
  res : Nat
  overflow : Bool
  zero : Bool
  nan : Bool
  precision_lost : Bool
deriving Repr, DecidableEq

/-- Result record of the multiplier (`struct BitTrueResult`). -/
structure BitTrueResult where
  res : Nat
  overflow : Bool
  zero : Bool
  nan : Bool
  underflow : Bool
deriving Repr, DecidableEq

/-- `swap` flag of the adder's big/small selection. -/
def swapB (n1 n2 : Nat) : Bool :=
  if adjExp n1 < adjExp n2 then true
  else if adjExp n1 = adjExp n2 then decide (mant n1 < mant n2)
  else false

def sign_big (n1 n2 : Nat) : Nat := if swapB n1 n2 then sgn n2 else sgn n1

def exp_big (n1 n2 : Nat) : Nat := if swapB n1 n2 then adjExp n2 else adjExp n1

def mant_big (n1 n2 : Nat) : Nat := if swapB n1 n2 then mant n2 else mant n1

def sign_sml (n1 n2 : Nat) : Nat := if swapB n1 n2 then sgn n1 else sgn n2

def exp_sml (n1 n2 : Nat) : Nat := if swapB n1 n2 then adjExp n1 else adjExp n2

def mant_sml (n1 n2 : Nat) : Nat := if swapB n1 n2 then mant n1 else mant n2

/-- `exp_diff = exp_big - exp_sml`; the selection guarantees
`exp_big ≥ exp_sml`, so `Nat` subtraction agrees with the `int32_t` one. -/
def exp_diff (n1 n2 : Nat) : Nat := exp_big n1 n2 - exp_sml n1 n2

/-- Aligned small significand (`mant_sml_shifted`). -/
def mant_sml_shifted (n1 n2 : Nat) : Nat :=
  if 11 + 2 ≤ exp_diff n1 n2 then 0
  else mant_sml n1 n2 >>> exp_diff n1 n2

/-- Sticky accumulator from the alignment shift (`bits_lost`). -/
def bits_lost (n1 n2 : Nat) : Nat :=
  if 11 + 2 ≤ exp_diff n1 n2 then (if mant_sml n1 n2 ≠ 0 then 1 else 0)
  else mant_sml n1 n2 &&& ((1 <<< exp_diff n1 n2) - 1)

/-- `mant_res_signed` : signed combination of the significands. -/
def mant_res_signed (n1 n2 : Nat) : Int :=
  if sign_big n1 n2 = sign_sml n1 n2 then
    (mant_big n1 n2 : Int) + (mant_sml_shifted n1 n2 : Int)
  else
    (mant_big n1 n2 : Int) - (mant_sml_shifted n1 n2 : Int)

/-- `uint32_t final_mant = mant_res_signed` — C conversion is mod `2^32`. -/
def final_mant0 (n1 n2 : Nat) : Nat :=
  ((mant_res_signed n1 n2) % (2 ^ 32)).toNat

/-- The `while (final_mant < 1024 && final_exp > 1)` leading-one search;
structural recursion on the exponent, which the loop strictly decreases. -/
def normLoop (m : Nat) : Nat → Nat × Nat
  | 0 => (m, 0)
  | 1 => (m, 1)
  | e + 2 => if m < 1024 then normLoop (m <<< 1) (e + 1) else (m, e + 2)

/-- Renormalization of `(final_mant, final_exp)` (source lines 189–208). -/
def renorm (m e : Nat) : Nat × Nat :=
  if 2048 ≤ m then (m >>> 1, e + 1)
  else
    let p := normLoop m e
    if p.1 < 1024 ∧ p.2 = 1 then (p.1, 0) else p

/-- Sticky state after renormalization: the carry-out right shift folds the
dropped bit into `bits_lost` (`if (lost_lk) bits_lost = 1`). -/
def bits_lost_final (n1 n2 : Nat) : Nat :=
  if 2048 ≤ final_mant0 n1 n2 ∧ final_mant0 n1 n2 &&& 1 = 1 then 1
  else bits_lost n1 n2

/-- `final_mant` after renormalization. -/
def fm_final (n1 n2 : Nat) : Nat := (renorm (final_mant0 n1 n2) (exp_big n1 n2)).1

/-- `final_exp` after renormalization. -/
def fe_final (n1 n2 : Nat) : Nat := (renorm (final_mant0 n1 n2) (exp_big n1 n2)).2

/-- Packed pattern `(sign_big << 15) | (final_exp << 10) | (final_mant & 0x3FF)`. -/
def pack_res (n1 n2 : Nat) : Nat :=
  (sign_big n1 n2 <<< 15) ||| (fe_final n1 n2 <<< 10) ||| (fm_final n1 n2 &&& 0x3FF)

/-- Arithmetic path of the adder (source lines 107–226, after the special
cases). -/
def addArith (n1 n2 : Nat) : FP16Result :=
  if final_mant0 n1 n2 = 0 then
    { res := if sign_big n1 n2 = sign_sml n1 n2 ∧ sign_big n1 n2 = 1 then 0x8000 else 0,
      overflow := false, zero := true, nan := false,
      precision_lost := decide (bits_lost n1 n2 ≠ 0) }
  else
    let base : FP16Result :=
      if 31 ≤ fe_final n1 n2 then
        { res := (sign_big n1 n2 <<< 15) ||| 0x7C00,
          overflow := true, zero := false, nan := false,
          precision_lost := decide (bits_lost_final n1 n2 ≠ 0) }
      else
        { res := pack_res n1 n2,
          overflow := false, zero := false, nan := false,
          precision_lost := decide (bits_lost_final n1 n2 ≠ 0) }
    if base.res &&& 0x7FFF = 0 then { base with zero := true } else base

/-- `fp16_add_model` (source lines 73–227). -/
def fp16_add_model (n1 n2 : Nat) : FP16Result :=
  if is_nan n1 ∨ is_nan n2 ∨ (is_inf n1 ∧ is_inf n2 ∧ sgn n1 ≠ sgn n2) then
    { res := 0x7FFF, overflow := false, zero := false, nan := true,
      precision_lost := false }
  else if is_inf n1 ∨ is_inf n2 then
    { res := if is_inf n1 then n1 else n2,
      overflow := true, zero := false, nan := false, precision_lost := false }
  else
    addArith n1 n2

end FP16

namespace FP16

/-! ### Multiplier (`fp16_mul_bittrue`, fp16_mul_ref.cpp lines 96–219) -/

/-- `s_res = s1 ^ s2`. -/
def s_res (n1 n2 : Nat) : Nat := sgn n1 ^^^ sgn n2

/-- `exp_res = exp1 + exp2 - 15` (signed). -/
def exp_res (n1 n2 : Nat) : Int := (adjExp n1 : Int) + (adjExp n2 : Int) - 15

/-- `mant_mult = mant1 * mant2` — 22-bit significand product. -/
def mant_mult (n1 n2 : Nat) : Nat := mant n1 * mant n2

/-- Significand after the bit-21 normalization shift. -/
def mant_norm (n1 n2 : Nat) : Nat :=
  if mant_mult n1 n2 &&& 0x200000 ≠ 0 then mant_mult n1 n2 >>> 1
  else mant_mult n1 n2

/-- Exponent after the bit-21 normalization shift. -/
def exp_norm (n1 n2 : Nat) : Int :=
  if mant_mult n1 n2 &&& 0x200000 ≠ 0 then exp_res n1 n2 + 1
  else exp_res n1 n2

/-- Denormalization shift result (`mant_mult >>= (1 - exp_res)`). -/
def m_shift (n1 n2 : Nat) : Nat := mant_norm n1 n2 >>> (1 - exp_norm n1 n2).toNat

/-- Packed denormal pattern (stored exponent forced to 0). -/
def mul_pack_denorm (n1 n2 : Nat) : Nat :=
  (s_res n1 n2 <<< 15) ||| (0 <<< 10) ||| ((m_shift n1 n2 >>> 10) &&& 0x3FF)

/-- Packed normal pattern. -/
def mul_pack_norm (n1 n2 : Nat) : Nat :=
  (s_res n1 n2 <<< 15) ||| ((exp_norm n1 n2).toNat <<< 10) ||| ((mant_norm n1 n2 >>> 10) &&& 0x3FF)

/-- Arithmetic path of the multiplier (source lines 140–218, after the
special cases). -/
def mulArith (n1 n2 : Nat) : BitTrueResult :=
  let base : BitTrueResult :=
    if 31 ≤ exp_norm n1 n2 then
      { res := (s_res n1 n2 <<< 15) ||| 0x7C00,
        overflow := true, zero := false, nan := false, underflow := false }
    else if exp_norm n1 n2 ≤ 0 then
      if exp_norm n1 n2 < -10 then
        { res := s_res n1 n2 <<< 15,
          overflow := false, zero := true, nan := false, underflow := true }
      else
        { res := mul_pack_denorm n1 n2,
          overflow := false, zero := decide (m_shift n1 n2 = 0), nan := false,
          underflow := false }
    else
      { res := mul_pack_norm n1 n2,
        overflow := false, zero := false, nan := false, underflow := false }
  if base.res &&& 0x7FFF = 0 then { base with zero := true } else base

/-- `fp16_mul_bittrue` (source lines 96–219). -/
def fp16_mul_bittrue (n1 n2 : Nat) : BitTrueResult :=
  if is_nan n1 ∨ is_nan n2 then
    { res := 0x7FFF, overflow := false, zero := false, nan := true, underflow := false }
  else if (is_inf n1 ∧ is_zero n2) ∨ (is_inf n2 ∧ is_zero n1) then
    { res := 0x7FFF, overflow := false, zero := false, nan := true, underflow := false }
  else if is_inf n1 ∨ is_inf n2 then
    { res := (s_res n1 n2 <<< 15) ||| 0x7C00,
      overflow := true, zero := false, nan := false, underflow := false }
  else if is_zero n1 ∨ is_zero n2 then
    { res := s_res n1 n2 <<< 15,
      overflow := false, zero := true, nan := false, underflow := false }
  else
    mulArith n1 n2

/-! ### Codec (`fp16_to_float` / `float_to_fp16`, fp16_mul_ref.cpp 22–79)

All float computations performed by `fp16_to_float` are exact in binary32
(powers of two times dyadic rationals well inside range), so binary32
values are embedded as their 32-bit patterns and the conversion is the
corresponding bit-level map. -/

/-- Position of the most significant set bit for `n ≤ 1023` (used to
normalize a subnormal's fraction into a binary32 significand). -/
def msbPos (n : Nat) : Nat :=
  if 512 ≤ n then 9 else if 256 ≤ n then 8 else if 128 ≤ n then 7
  else if 64 ≤ n then 6 else if 32 ≤ n then 5 else if 16 ≤ n then 4
  else if 8 ≤ n then 3 else if 4 ≤ n then 2 else if 2 ≤ n then 1 else 0

/-- `fp16_to_float`, returning the binary32 bit pattern of the (exact)
float result.  Field extraction is the same `(h >> 15) & 1` / `(h >> 10) &
0x1F` / `h & 0x3FF` as in the kernels, so it is written with the shared
`sgn`/`expf`/`fracf`.  The `NAN` macro's pattern is the canonical quiet NaN
`0x7FC00000`. -/
def fp16_to_float (h : Nat) : Nat :=
  if expf h = 0 then
    if fracf h = 0 then
      sgn h <<< 31
    else
      -- frac * 2^(-24), a normal binary32 number with unbiased exponent
      -- msbPos frac - 24 and 23-bit fraction (frac - 2^msb) << (23 - msb)
      (sgn h <<< 31) ||| ((msbPos (fracf h) + 103) <<< 23) |||
        ((fracf h - (1 <<< msbPos (fracf h))) <<< (23 - msbPos (fracf h)))
  else if expf h = 31 then
    if fracf h = 0 then (sgn h <<< 31) ||| 0x7F800000
    else 0x7FC00000
  else
    -- (1 + frac/1024) * 2^(exp - 15): biased binary32 exponent exp + 112
    (sgn h <<< 31) ||| ((expf h + 112) <<< 23) ||| (fracf h <<< 13)

/-- Binary32 sign field `(i >> 31) & 1`. -/
def sgn32 (i : Nat) : Nat := (i >>> 31) &&& 1

/-- Binary32 exponent field `(i >> 23) & 0xFF`. -/
def expf32 (i : Nat) : Nat := (i >>> 23) &&& 0xFF

/-- Binary32 fraction field `i & 0x7FFFFF`. -/
def fracf32 (i : Nat) : Nat := i &&& 0x7FFFFF

/-- `float_to_fp16` on the binary32 bit pattern of the argument. -/
def float_to_fp16 (i : Nat) : Nat :=
  if expf32 i = 255 ∧ fracf32 i ≠ 0 then 0x7FFF
  else if expf32 i = 255 ∧ fracf32 i = 0 then (sgn32 i <<< 15) ||| 0x7C00
  else if expf32 i = 0 ∧ fracf32 i = 0 then sgn32 i <<< 15
  else
    let new_exp : Int := ((expf32 i : Int) - 127) + 15
    if new_exp ≤ 0 then
      if new_exp < -10 then sgn32 i <<< 15
      else (sgn32 i <<< 15) ||| (((fracf32 i ||| 0x800000) >>> (1 - new_exp).toNat) >>> 13)
    else if 31 ≤ new_exp then (sgn32 i <<< 15) ||| 0x7C00
    else (sgn32 i <<< 15) ||| (new_exp.toNat <<< 10) ||| (fracf32 i >>> 13)

end FP16

namespace FP16

/-! ### Bit-arithmetic toolkit -/

theorem bit_false_lor_bit (s : Bool) (x y : Nat) :
    Nat.bit false x ||| Nat.bit s y = 2 * (x ||| y) + s.toNat := by
  rw [Nat.lor_bit]
  cases s <;> simp [Nat.bit]

theorem lor_split : ∀ (n a b : Nat), b < 2 ^ n → (2 ^ n * a) ||| b = 2 ^ n * a + b := by
  intro n
  induction n with
  | zero =>
    intro a b hb
    have hb0 : b = 0 := by omega
    subst hb0
    simp
  | succ n ih =>
    intro a b hb
    have hm : 2 ^ (n + 1) * a = 2 * (2 ^ n * a) := by ring
    have h2 : b = Nat.bit (decide (b % 2 = 1)) (b / 2) := by
      rcases Nat.mod_two_eq_zero_or_one b with h | h <;> simp [Nat.bit, h] <;> omega
    have hb2 : b / 2 < 2 ^ n := by
      rw [Nat.pow_succ] at hb
      omega
    have key : (2 * (2 ^ n * a)) ||| b
        = 2 * ((2 ^ n * a) ||| (b / 2)) + (decide (b % 2 = 1)).toNat := by
      conv_lhs =>
        rw [show 2 * (2 ^ n * a) = Nat.bit false (2 ^ n * a) from by simp [Nat.bit], h2]
      exact bit_false_lor_bit _ _ _
    rw [hm, key, ih a (b / 2) hb2]
    rcases Nat.mod_two_eq_zero_or_one b with h | h <;> simp [h] <;> omega

theorem sgn_eq (n : Nat) : sgn n = n / 32768 % 2 := by
  unfold sgn
  rw [Nat.shiftRight_eq_div_pow, Nat.and_one_is_mod]

theorem expf_eq (n : Nat) : expf n = n / 1024 % 32 := by
  unfold expf
  rw [Nat.shiftRight_eq_div_pow, show (0x1F : Nat) = 2 ^ 5 - 1 from rfl,
    Nat.and_pow_two_sub_one_eq_mod]

theorem fracf_eq (n : Nat) : fracf n = n % 1024 := by
  unfold fracf
  rw [show (0x3FF : Nat) = 2 ^ 10 - 1 from rfl, Nat.and_pow_two_sub_one_eq_mod]

theorem sgn_le_one (n : Nat) : sgn n ≤ 1 := by
  rw [sgn_eq]
  omega

theorem expf_le (n : Nat) : expf n ≤ 31 := by
  rw [expf_eq]
  omega

theorem fracf_lt (n : Nat) : fracf n < 1024 := by
  rw [fracf_eq]
  omega

theorem mant_eq (n : Nat) : mant n = if expf n = 0 then fracf n else 1024 + fracf n := by
  unfold mant
  rcases eq_or_ne (expf n) 0 with h | h
  · simp [h]
  · have hf : fracf n < 2 ^ 10 := fracf_lt n
    rw [if_neg h, if_neg h, Nat.lor_comm,
      show (1024 : Nat) = 2 ^ 10 * 1 from rfl, lor_split 10 1 (fracf n) hf]

theorem mant_lt (n : Nat) : mant n < 2048 := by
  rw [mant_eq]
  have := fracf_lt n
  split <;> omega

theorem le_mant (n : Nat) (h : expf n ≠ 0) : 1024 ≤ mant n := by
  rw [mant_eq, if_neg h]
  omega

theorem adjExp_pos (n : Nat) : 1 ≤ adjExp n := by
  unfold adjExp
  split <;> omega

theorem adjExp_le (n : Nat) : adjExp n ≤ 31 := by
  unfold adjExp
  have := expf_le n
  split <;> omega

theorem expf_le_30 (n : Nat) (h1 : ¬ is_nan n) (h2 : ¬ is_inf n) : expf n ≤ 30 := by
  have := expf_le n
  rcases eq_or_ne (expf n) 31 with h | h
  · rcases eq_or_ne (fracf n) 0 with hf | hf
    · exact absurd ⟨h, hf⟩ h2
    · exact absurd ⟨h, hf⟩ h1
  · omega

theorem adjExp_le_30 (n : Nat) (h1 : ¬ is_nan n) (h2 : ¬ is_inf n) : adjExp n ≤ 30 := by
  unfold adjExp
  have := expf_le_30 n h1 h2
  split <;> omega

end FP16

namespace FP16

/-! ### Alignment facts for the adder -/

theorem big_sml_true (n1 n2 : Nat) (hs : swapB n1 n2 = true) :
    sign_big n1 n2 = sgn n2 ∧ exp_big n1 n2 = adjExp n2 ∧ mant_big n1 n2 = mant n2 ∧
    sign_sml n1 n2 = sgn n1 ∧ exp_sml n1 n2 = adjExp n1 ∧ mant_sml n1 n2 = mant n1 := by
  unfold sign_big exp_big mant_big sign_sml exp_sml mant_sml
  rw [hs]
  simp

theorem big_sml_false (n1 n2 : Nat) (hs : swapB n1 n2 = false) :
    sign_big n1 n2 = sgn n1 ∧ exp_big n1 n2 = adjExp n1 ∧ mant_big n1 n2 = mant n1 ∧
    sign_sml n1 n2 = sgn n2 ∧ exp_sml n1 n2 = adjExp n2 ∧ mant_sml n1 n2 = mant n2 := by
  unfold sign_big exp_big mant_big sign_sml exp_sml mant_sml
  rw [hs]
  simp

theorem swapB_true_iff (n1 n2 : Nat) :
    swapB n1 n2 = true ↔
      (adjExp n1 < adjExp n2 ∨ (adjExp n1 = adjExp n2 ∧ mant n1 < mant n2)) := by
  unfold swapB
  split_ifs with h1 h2
  · simp [h1]
  · simp [h2]
  · simp
    omega

theorem swapB_false_iff (n1 n2 : Nat) :
    swapB n1 n2 = false ↔
      (adjExp n2 < adjExp n1 ∨ (adjExp n1 = adjExp n2 ∧ mant n2 ≤ mant n1)) := by
  rw [← Bool.not_eq_true, swapB_true_iff]
  omega

theorem exp_sml_le_exp_big (n1 n2 : Nat) : exp_sml n1 n2 ≤ exp_big n1 n2 := by
  cases hs : swapB n1 n2 with
  | true =>
    obtain ⟨-, he, -, -, hes, -⟩ := big_sml_true n1 n2 hs
    rw [he, hes]
    rcases (swapB_true_iff n1 n2).mp hs with h | h <;> omega
  | false =>
    obtain ⟨-, he, -, -, hes, -⟩ := big_sml_false n1 n2 hs
    rw [he, hes]
    rcases (swapB_false_iff n1 n2).mp hs with h | h <;> omega

theorem adjExp_two_le (n : Nat) (h : 2 ≤ adjExp n) : expf n ≠ 0 := by
  unfold adjExp at h
  split at h <;> omega

theorem mant_big_lt (n1 n2 : Nat) : mant_big n1 n2 < 2048 := by
  unfold mant_big
  split <;> exact mant_lt _

theorem mant_sml_lt (n1 n2 : Nat) : mant_sml n1 n2 < 2048 := by
  unfold mant_sml
  split <;> exact mant_lt _

theorem mant_sml_le_of_exp_diff_zero (n1 n2 : Nat) (hd : exp_diff n1 n2 = 0) :
    mant_sml n1 n2 ≤ mant_big n1 n2 := by
  unfold exp_diff at hd
  have hle := exp_sml_le_exp_big n1 n2
  cases hs : swapB n1 n2 with
  | true =>
    obtain ⟨-, he, hm, -, hes, hms⟩ := big_sml_true n1 n2 hs
    rw [hm, hms]
    rw [he, hes] at hd hle
    rcases (swapB_true_iff n1 n2).mp hs with h | h <;> omega
  | false =>
    obtain ⟨-, he, hm, -, hes, hms⟩ := big_sml_false n1 n2 hs
    rw [hm, hms]
    rw [he, hes] at hd hle
    rcases (swapB_false_iff n1 n2).mp hs with h | h <;> omega

theorem mant_big_ge_of_exp_diff_pos (n1 n2 : Nat) (hd : 0 < exp_diff n1 n2) :
    1024 ≤ mant_big n1 n2 := by
  unfold exp_diff at hd
  have h1 := adjExp_pos n1
  have h2 := adjExp_pos n2
  cases hs : swapB n1 n2 with
  | true =>
    obtain ⟨-, he, hm, -, hes, -⟩ := big_sml_true n1 n2 hs
    rw [he, hes] at hd
    rw [hm]
    exact le_mant _ (adjExp_two_le _ (by omega))
  | false =>
    obtain ⟨-, he, hm, -, hes, -⟩ := big_sml_false n1 n2 hs
    rw [he, hes] at hd
    rw [hm]
    exact le_mant _ (adjExp_two_le _ (by omega))

theorem shifted_le_mant_big (n1 n2 : Nat) :
    mant_sml_shifted n1 n2 ≤ mant_big n1 n2 := by
  unfold mant_sml_shifted
  split
  · exact Nat.zero_le _
  · rcases Nat.eq_zero_or_pos (exp_diff n1 n2) with hd | hd
    · rw [hd, Nat.shiftRight_zero]
      exact mant_sml_le_of_exp_diff_zero n1 n2 hd
    · have hm := mant_big_ge_of_exp_diff_pos n1 n2 hd
      have hs : mant_sml n1 n2 >>> exp_diff n1 n2 ≤ mant_sml n1 n2 / 2 := by
        rw [Nat.shiftRight_eq_div_pow]
        have h2 : (2 : Nat) ≤ 2 ^ exp_diff n1 n2 := by
          calc (2 : Nat) = 2 ^ 1 := rfl
          _ ≤ 2 ^ exp_diff n1 n2 := Nat.pow_le_pow_right (by norm_num) hd
        exact Nat.div_le_div_left h2 (by norm_num)
      have := mant_sml_lt n1 n2
      omega

theorem mant_res_nonneg (n1 n2 : Nat) : 0 ≤ mant_res_signed n1 n2 := by
  unfold mant_res_signed
  split
  · positivity
  · have := shifted_le_mant_big n1 n2
    omega

theorem mant_res_lt (n1 n2 : Nat) : mant_res_signed n1 n2 < 4096 := by
  unfold mant_res_signed
  have h1 := mant_big_lt n1 n2
  have h2 : mant_sml_shifted n1 n2 < 2048 := by
    have := shifted_le_mant_big n1 n2
    omega
  split <;> omega

theorem final_mant0_eq (n1 n2 : Nat) :
    final_mant0 n1 n2 = (mant_res_signed n1 n2).toNat := by
  unfold final_mant0
  rw [Int.emod_eq_of_lt (mant_res_nonneg n1 n2)]
  have := mant_res_lt n1 n2
  omega

theorem final_mant0_lt (n1 n2 : Nat) : final_mant0 n1 n2 < 4096 := by
  rw [final_mant0_eq]
  have := mant_res_lt n1 n2
  have := mant_res_nonneg n1 n2
  omega

theorem final_mant0_add_case (n1 n2 : Nat) (h : sign_big n1 n2 = sign_sml n1 n2) :
    final_mant0 n1 n2 = mant_big n1 n2 + mant_sml_shifted n1 n2 := by
  rw [final_mant0_eq]
  unfold mant_res_signed
  rw [if_pos h]
  omega

theorem final_mant0_sub_case (n1 n2 : Nat) (h : ¬ sign_big n1 n2 = sign_sml n1 n2) :
    final_mant0 n1 n2 = mant_big n1 n2 - mant_sml_shifted n1 n2 := by
  rw [final_mant0_eq]
  unfold mant_res_signed
  rw [if_neg h]
  have := shifted_le_mant_big n1 n2
  omega

end FP16

namespace FP16

/-! ### Branch equations for the two kernels -/

theorem sign_big_le (n1 n2 : Nat) : sign_big n1 n2 ≤ 1 := by
  unfold sign_big
  split <;> exact sgn_le_one _

theorem s_res_le (n1 n2 : Nat) : s_res n1 n2 ≤ 1 := by
  unfold s_res
  have h1 := sgn_le_one n1
  have h2 := sgn_le_one n2
  rcases Nat.le_one_iff_eq_zero_or_eq_one.mp h1 with h | h <;>
    rcases Nat.le_one_iff_eq_zero_or_eq_one.mp h2 with h' | h' <;>
      rw [h, h'] <;> decide

theorem sign_inf_and (s : Nat) (hs : s ≤ 1) :
    ((s <<< 15) ||| 0x7C00) &&& 0x7FFF = 0x7C00 := by
  rcases Nat.le_one_iff_eq_zero_or_eq_one.mp hs with h | h <;> subst h <;> decide

theorem sign_shift_and (s : Nat) (hs : s ≤ 1) : (s <<< 15) &&& 0x7FFF = 0 := by
  rcases Nat.le_one_iff_eq_zero_or_eq_one.mp hs with h | h <;> subst h <;> decide

theorem addArith_zero_case (n1 n2 : Nat) (h0 : final_mant0 n1 n2 = 0) :
    addArith n1 n2 =
      ⟨if sign_big n1 n2 = sign_sml n1 n2 ∧ sign_big n1 n2 = 1 then 0x8000 else 0,
       false, true, false, decide (bits_lost n1 n2 ≠ 0)⟩ := by
  unfold addArith
  rw [if_pos h0]

theorem addArith_overflow_case (n1 n2 : Nat) (h0 : final_mant0 n1 n2 ≠ 0)
    (hfe : 31 ≤ fe_final n1 n2) :
    addArith n1 n2 =
      ⟨(sign_big n1 n2 <<< 15) ||| 0x7C00, true, false, false,
       decide (bits_lost_final n1 n2 ≠ 0)⟩ := by
  unfold addArith
  rw [if_neg h0]
  dsimp only
  rw [if_pos hfe]
  rw [if_neg]
  dsimp only
  rw [sign_inf_and _ (sign_big_le n1 n2)]
  decide

theorem addArith_pack_case (n1 n2 : Nat) (h0 : final_mant0 n1 n2 ≠ 0)
    (hfe : fe_final n1 n2 < 31) :
    addArith n1 n2 =
      ⟨pack_res n1 n2, false, decide (pack_res n1 n2 &&& 0x7FFF = 0), false,
       decide (bits_lost_final n1 n2 ≠ 0)⟩ := by
  unfold addArith
  rw [if_neg h0]
  dsimp only
  rw [if_neg (by omega : ¬ 31 ≤ fe_final n1 n2)]
  rcases eq_or_ne (pack_res n1 n2 &&& 0x7FFF) 0 with hz | hz
  · rw [if_pos hz]
    simp [hz]
  · rw [if_neg hz]
    simp [hz]

theorem addArith_nan (n1 n2 : Nat) : (addArith n1 n2).nan = false := by
  rcases eq_or_ne (final_mant0 n1 n2) 0 with h0 | h0
  · rw [addArith_zero_case n1 n2 h0]
  · rcases lt_or_le (fe_final n1 n2) 31 with hfe | hfe
    · rw [addArith_pack_case n1 n2 h0 hfe]
    · rw [addArith_overflow_case n1 n2 h0 hfe]

theorem mulArith_overflow_case (n1 n2 : Nat) (h : 31 ≤ exp_norm n1 n2) :
    mulArith n1 n2 =
      ⟨(s_res n1 n2 <<< 15) ||| 0x7C00, true, false, false, false⟩ := by
  unfold mulArith
  dsimp only
  rw [if_pos h]
  rw [if_neg]
  dsimp only
  rw [sign_inf_and _ (s_res_le n1 n2)]
  decide

theorem mulArith_flush_case (n1 n2 : Nat) (h : exp_norm n1 n2 < -10) :
    mulArith n1 n2 = ⟨s_res n1 n2 <<< 15, false, true, false, true⟩ := by
  unfold mulArith
  dsimp only
  rw [if_neg (by omega : ¬ 31 ≤ exp_norm n1 n2), if_pos (by omega : exp_norm n1 n2 ≤ 0),
    if_pos h]
  rcases eq_or_ne ((s_res n1 n2 <<< 15) &&& 0x7FFF) 0 with hz | hz
  · rw [if_pos hz]
  · rw [if_neg hz]

theorem mulArith_denorm_case (n1 n2 : Nat) (h1 : exp_norm n1 n2 ≤ 0)
    (h2 : -10 ≤ exp_norm n1 n2) :
    mulArith n1 n2 =
      ⟨mul_pack_denorm n1 n2, false,
       decide (m_shift n1 n2 = 0) || decide (mul_pack_denorm n1 n2 &&& 0x7FFF = 0),
       false, false⟩ := by
  unfold mulArith
  dsimp only
  rw [if_neg (by omega : ¬ 31 ≤ exp_norm n1 n2), if_pos h1,
    if_neg (by omega : ¬ exp_norm n1 n2 < -10)]
  rcases eq_or_ne (mul_pack_denorm n1 n2 &&& 0x7FFF) 0 with hz | hz
  · rw [if_pos hz]
    simp [hz]
  · rw [if_neg hz]
    simp [hz]

theorem mulArith_norm_case (n1 n2 : Nat) (h1 : 0 < exp_norm n1 n2)
    (h2 : exp_norm n1 n2 < 31) :
    mulArith n1 n2 =
      ⟨mul_pack_norm n1 n2, false, decide (mul_pack_norm n1 n2 &&& 0x7FFF = 0),
       false, false⟩ := by
  unfold mulArith
  dsimp only
  rw [if_neg (by omega : ¬ 31 ≤ exp_norm n1 n2), if_neg (by omega : ¬ exp_norm n1 n2 ≤ 0)]
  rcases eq_or_ne (mul_pack_norm n1 n2 &&& 0x7FFF) 0 with hz | hz
  · rw [if_pos hz]
    simp [hz]
  · rw [if_neg hz]
    simp [hz]

theorem mulArith_nan (n1 n2 : Nat) : (mulArith n1 n2).nan = false := by
  rcases lt_or_le (exp_norm n1 n2) (-10) with h | h
  · rw [mulArith_flush_case n1 n2 h]
  · rcases le_or_lt (exp_norm n1 n2) 0 with h1 | h1
    · rw [mulArith_denorm_case n1 n2 h1 h]
    · rcases lt_or_le (exp_norm n1 n2) 31 with h2 | h2
      · rw [mulArith_norm_case n1 n2 h1 h2]
      · rw [mulArith_overflow_case n1 n2 h2]

/-- Non-special operand pair for the adder: no NaN and no infinity. -/
def nonspecialA (n1 n2 : Nat) : Prop :=
  ¬ is_nan n1 ∧ ¬ is_nan n2 ∧ ¬ is_inf n1 ∧ ¬ is_inf n2

/-- Non-special operand pair for the multiplier: no NaN, infinity or zero. -/
def nonspecialM (n1 n2 : Nat) : Prop :=
  nonspecialA n1 n2 ∧ ¬ is_zero n1 ∧ ¬ is_zero n2

instance (n1 n2 : Nat) : Decidable (nonspecialA n1 n2) := by
  unfold nonspecialA
  infer_instance

instance (n1 n2 : Nat) : Decidable (nonspecialM n1 n2) := by
  unfold nonspecialM nonspecialA
  infer_instance

theorem add_model_eq_arith (n1 n2 : Nat) (h : nonspecialA n1 n2) :
    fp16_add_model n1 n2 = addArith n1 n2 := by
  obtain ⟨h1, h2, h3, h4⟩ := h
  unfold fp16_add_model
  rw [if_neg (by tauto), if_neg (by tauto)]

theorem mul_model_eq_arith (n1 n2 : Nat) (h : nonspecialM n1 n2) :
    fp16_mul_bittrue n1 n2 = mulArith n1 n2 := by
  obtain ⟨⟨h1, h2, h3, h4⟩, h5, h6⟩ := h
  unfold fp16_mul_bittrue
  rw [if_neg (by tauto), if_neg (by tauto), if_neg (by tauto), if_neg (by tauto)]

end FP16

namespace FP16

/-! ### Model-level branch equations and class facts -/

theorem is_inf_not_nan (n : Nat) (h : is_inf n) : ¬ is_nan n := by
  obtain ⟨h1, h2⟩ := h
  intro ⟨h3, h4⟩
  exact h4 h2

theorem is_zero_not_nan (n : Nat) (h : is_zero n) : ¬ is_nan n := by
  obtain ⟨h1, h2⟩ := h
  intro ⟨h3, h4⟩
  omega

theorem is_zero_not_inf (n : Nat) (h : is_zero n) : ¬ is_inf n := by
  obtain ⟨h1, h2⟩ := h
  intro ⟨h3, h4⟩
  omega

theorem inf_pattern (a : Nat) (ha : a < 65536) (h : is_inf a) :
    a = 0x7C00 ∨ a = 0xFC00 := by
  obtain ⟨he, hf⟩ := h
  rw [expf_eq] at he
  rw [fracf_eq] at hf
  omega

theorem sign_inf_pattern (s : Nat) (hs : s ≤ 1) :
    (s <<< 15) ||| 0x7C00 = 0x7C00 ∨ (s <<< 15) ||| 0x7C00 = 0xFC00 := by
  rcases Nat.le_one_iff_eq_zero_or_eq_one.mp hs with h | h <;> subst h
  · left
    decide
  · right
    decide

theorem add_model_nan_case (n1 n2 : Nat)
    (h : is_nan n1 ∨ is_nan n2 ∨ (is_inf n1 ∧ is_inf n2 ∧ sgn n1 ≠ sgn n2)) :
    fp16_add_model n1 n2 = ⟨0x7FFF, false, false, true, false⟩ := by
  unfold fp16_add_model
  rw [if_pos h]

theorem add_model_inf_case (n1 n2 : Nat)
    (hn : ¬ (is_nan n1 ∨ is_nan n2 ∨ (is_inf n1 ∧ is_inf n2 ∧ sgn n1 ≠ sgn n2)))
    (hi : is_inf n1 ∨ is_inf n2) :
    fp16_add_model n1 n2 = ⟨if is_inf n1 then n1 else n2, true, false, false, false⟩ := by
  unfold fp16_add_model
  rw [if_neg hn, if_pos hi]

theorem mul_model_nan_case (n1 n2 : Nat) (h : is_nan n1 ∨ is_nan n2) :
    fp16_mul_bittrue n1 n2 = ⟨0x7FFF, false, false, true, false⟩ := by
  unfold fp16_mul_bittrue
  rw [if_pos h]

theorem mul_model_indet_case (n1 n2 : Nat) (hn : ¬ (is_nan n1 ∨ is_nan n2))
    (h : (is_inf n1 ∧ is_zero n2) ∨ (is_inf n2 ∧ is_zero n1)) :
    fp16_mul_bittrue n1 n2 = ⟨0x7FFF, false, false, true, false⟩ := by
  unfold fp16_mul_bittrue
  rw [if_neg hn, if_pos h]

theorem mul_model_inf_case (n1 n2 : Nat) (hn : ¬ (is_nan n1 ∨ is_nan n2))
    (hind : ¬ ((is_inf n1 ∧ is_zero n2) ∨ (is_inf n2 ∧ is_zero n1)))
    (hi : is_inf n1 ∨ is_inf n2) :
    fp16_mul_bittrue n1 n2 =
      ⟨(s_res n1 n2 <<< 15) ||| 0x7C00, true, false, false, false⟩ := by
  unfold fp16_mul_bittrue
  rw [if_neg hn, if_neg hind, if_pos hi]

theorem mul_model_zero_case (n1 n2 : Nat) (hn : ¬ (is_nan n1 ∨ is_nan n2))
    (hind : ¬ ((is_inf n1 ∧ is_zero n2) ∨ (is_inf n2 ∧ is_zero n1)))
    (hi : ¬ (is_inf n1 ∨ is_inf n2)) (hz : is_zero n1 ∨ is_zero n2) :
    fp16_mul_bittrue n1 n2 = ⟨s_res n1 n2 <<< 15, false, true, false, false⟩ := by
  unfold fp16_mul_bittrue
  rw [if_neg hn, if_neg hind, if_neg hi, if_pos hz]

end FP16

namespace FP16

/-! ### Claim theorems -/

/-- C1: if either 16-bit operand is in the NaN class, `add` and `multiply`
both return result `0x7FFF` with the nan flag set, regardless of the other
operand; and the nan flag is set in no other case except the indeterminate
forms (adder: opposite-sign infinities; multiplier: infinity times zero). -/
theorem C1_nan_propagation (n1 n2 : Nat) :
    ((is_nan n1 ∨ is_nan n2) →
      (fp16_add_model n1 n2).res = 0x7FFF ∧ (fp16_add_model n1 n2).nan = true ∧
      (fp16_mul_bittrue n1 n2).res = 0x7FFF ∧ (fp16_mul_bittrue n1 n2).nan = true) ∧
    ((fp16_add_model n1 n2).nan = true ↔
      (is_nan n1 ∨ is_nan n2 ∨ (is_inf n1 ∧ is_inf n2 ∧ sgn n1 ≠ sgn n2))) ∧
    ((fp16_mul_bittrue n1 n2).nan = true ↔
      (is_nan n1 ∨ is_nan n2 ∨ (is_inf n1 ∧ is_zero n2) ∨ (is_inf n2 ∧ is_zero n1))) := by
  refine ⟨?_, ?_, ?_⟩
  · intro h
    rw [add_model_nan_case n1 n2 (by tauto), mul_model_nan_case n1 n2 h]
    exact ⟨rfl, rfl, rfl, rfl⟩
  · by_cases hC : is_nan n1 ∨ is_nan n2 ∨ (is_inf n1 ∧ is_inf n2 ∧ sgn n1 ≠ sgn n2)
    · rw [add_model_nan_case n1 n2 hC]
      simp [hC]
    · by_cases hI : is_inf n1 ∨ is_inf n2
      · rw [add_model_inf_case n1 n2 hC hI]
        simp [hC]
      · push_neg at hC hI
        have hns : nonspecialA n1 n2 := ⟨hC.1, hC.2.1, hI.1, hI.2⟩
        rw [add_model_eq_arith n1 n2 hns, addArith_nan]
        simp only [Bool.false_eq_true, false_iff]
        tauto
  · by_cases hN : is_nan n1 ∨ is_nan n2
    · rw [mul_model_nan_case n1 n2 hN]
      simp
      tauto
    · by_cases hInd : (is_inf n1 ∧ is_zero n2) ∨ (is_inf n2 ∧ is_zero n1)
      · rw [mul_model_indet_case n1 n2 hN hInd]
        simp
        tauto
      · by_cases hI : is_inf n1 ∨ is_inf n2
        · rw [mul_model_inf_case n1 n2 hN hInd hI]
          simp only [Bool.false_eq_true, false_iff]
          tauto
        · by_cases hZ : is_zero n1 ∨ is_zero n2
          · rw [mul_model_zero_case n1 n2 hN hInd hI hZ]
            simp only [Bool.false_eq_true, false_iff]
            tauto
          · push_neg at hN hI hZ
            have hns : nonspecialM n1 n2 := ⟨⟨hN.1, hN.2, hI.1, hI.2⟩, hZ.1, hZ.2⟩
            rw [mul_model_eq_arith n1 n2 hns, mulArith_nan]
            simp only [Bool.false_eq_true, false_iff]
            tauto

/-- C1 witness: instantiation at a NaN operand (`0x7C01`) against `0xFFFF`. -/
theorem C1_nan_propagation_witness :
    (fp16_add_model 0x7C01 0xFFFF).res = 0x7FFF ∧
    (fp16_mul_bittrue 0x7C01 0xFFFF).nan = true := by
  obtain ⟨h, -, -⟩ := C1_nan_propagation 0x7C01 0xFFFF
  obtain ⟨h1, h2, h3, h4⟩ := h (by decide)
  exact ⟨h1, h4⟩

/-- C7: indeterminate forms produce the canonical NaN with only the nan
flag set: adding two infinities of opposite signs, and multiplying an
infinity by a zero in either order (taking precedence over the plain
infinity/zero propagation); in particular `add(0x7C00, 0xFC00)`. -/
theorem C7_indeterminate_forms (n1 n2 : Nat) :
    ((is_inf n1 ∧ is_inf n2 ∧ sgn n1 ≠ sgn n2) →
      fp16_add_model n1 n2 = ⟨0x7FFF, false, false, true, false⟩) ∧
    (((is_inf n1 ∧ is_zero n2) ∨ (is_inf n2 ∧ is_zero n1)) →
      fp16_mul_bittrue n1 n2 = ⟨0x7FFF, false, false, true, false⟩) ∧
    fp16_add_model 0x7C00 0xFC00 = ⟨0x7FFF, false, false, true, false⟩ := by
  refine ⟨?_, ?_, by decide⟩
  · intro h
    exact add_model_nan_case n1 n2 (by tauto)
  · intro h
    have hn : ¬ (is_nan n1 ∨ is_nan n2) := by
      rcases h with ⟨hi, hz⟩ | ⟨hi, hz⟩
      · exact fun hc => hc.elim (is_inf_not_nan n1 hi) (is_zero_not_nan n2 hz)
      · exact fun hc => hc.elim (is_zero_not_nan n1 hz) (is_inf_not_nan n2 hi)
    exact mul_model_indet_case n1 n2 hn h

/-- C7 witness: instantiation at `multiply(0x7C00, 0x8000)` (Inf × −0). -/
theorem C7_indeterminate_forms_witness :
    fp16_mul_bittrue 0x7C00 0x8000 = ⟨0x7FFF, false, false, true, false⟩ :=
  (C7_indeterminate_forms 0x7C00 0x8000).2.1 (Or.inl ⟨by decide, by decide⟩)

/-- C8: in `add`, an infinite operand (outside the NaN/indeterminate cases)
is returned unchanged — its exact 16-bit pattern, sign included — with the
overflow flag set; when both operands are infinite with equal signs the two
patterns coincide and that infinity is returned; and
`add(0x7C00, 0x3C00) = (0x7C00, overflow)`. -/
theorem C8_infinity_propagation (n1 n2 : Nat) (h1 : n1 < 65536) (h2 : n2 < 65536)
    (hn1 : ¬ is_nan n1) (hn2 : ¬ is_nan n2) (hinf : is_inf n1 ∨ is_inf n2)
    (hind : ¬ (is_inf n1 ∧ is_inf n2 ∧ sgn n1 ≠ sgn n2)) :
    fp16_add_model n1 n2 = ⟨if is_inf n1 then n1 else n2, true, false, false, false⟩ ∧
    (is_inf n1 → (fp16_add_model n1 n2).res = n1) ∧
    (¬ is_inf n1 → is_inf n2 → (fp16_add_model n1 n2).res = n2) ∧
    (is_inf n1 ∧ is_inf n2 → n1 = n2 ∧ (fp16_add_model n1 n2).res = n1) ∧
    fp16_add_model 0x7C00 0x3C00 = ⟨0x7C00, true, false, false, false⟩ := by
  have hmodel := add_model_inf_case n1 n2 (by tauto) hinf
  refine ⟨hmodel, ?_, ?_, ?_, by decide⟩
  · intro hi
    rw [hmodel, if_pos hi]
  · intro hi1 hi2
    rw [hmodel, if_neg hi1]
  · intro ⟨hi1, hi2⟩
    have heq : n1 = n2 := by
      have hsg : sgn n1 = sgn n2 := by tauto
      rcases inf_pattern n1 h1 hi1 with h | h <;> rcases inf_pattern n2 h2 hi2 with h' | h' <;>
        rw [h, h'] at hsg ⊢ <;> first | rfl | (exfalso; revert hsg; decide)
    refine ⟨heq, ?_⟩
    rw [hmodel, if_pos hi1]

/-- C8 witness: instantiation at `add(0x7C00, 0x3C00)`. -/
theorem C8_infinity_propagation_witness :
    fp16_add_model 0x7C00 0x3C00 = ⟨0x7C00, true, false, false, false⟩ :=
  (C8_infinity_propagation 0x7C00 0x3C00 (by decide) (by decide) (by decide) (by decide)
    (Or.inl (by decide)) (by decide)).1

end FP16

namespace FP16

/-- C2: for both kernels, nan flag implies result pattern `0x7FFF`, overflow
flag implies the result encodes a signed infinity (`0x7C00`/`0xFC00`), and
the overflow and zero flags are never simultaneously true. -/
theorem C2_flag_pattern_invariants (n1 n2 : Nat) (h1 : n1 < 65536) (h2 : n2 < 65536) :
    ((fp16_add_model n1 n2).nan = true → (fp16_add_model n1 n2).res = 0x7FFF) ∧
    ((fp16_add_model n1 n2).overflow = true →
      (fp16_add_model n1 n2).res = 0x7C00 ∨ (fp16_add_model n1 n2).res = 0xFC00) ∧
    (¬ ((fp16_add_model n1 n2).overflow = true ∧ (fp16_add_model n1 n2).zero = true)) ∧
    ((fp16_mul_bittrue n1 n2).nan = true → (fp16_mul_bittrue n1 n2).res = 0x7FFF) ∧
    ((fp16_mul_bittrue n1 n2).overflow = true →
      (fp16_mul_bittrue n1 n2).res = 0x7C00 ∨ (fp16_mul_bittrue n1 n2).res = 0xFC00) ∧
    (¬ ((fp16_mul_bittrue n1 n2).overflow = true ∧ (fp16_mul_bittrue n1 n2).zero = true)) := by
  have hadd : ((fp16_add_model n1 n2).nan = true → (fp16_add_model n1 n2).res = 0x7FFF) ∧
      ((fp16_add_model n1 n2).overflow = true →
        (fp16_add_model n1 n2).res = 0x7C00 ∨ (fp16_add_model n1 n2).res = 0xFC00) ∧
      (¬ ((fp16_add_model n1 n2).overflow = true ∧ (fp16_add_model n1 n2).zero = true)) := by
    by_cases hC : is_nan n1 ∨ is_nan n2 ∨ (is_inf n1 ∧ is_inf n2 ∧ sgn n1 ≠ sgn n2)
    · rw [add_model_nan_case n1 n2 hC]
      simp
    · by_cases hI : is_inf n1 ∨ is_inf n2
      · rw [add_model_inf_case n1 n2 hC hI]
        simp only [Bool.false_eq_true, false_implies, true_implies, and_false,
          not_false_iff, and_true, true_and]
        split
        · exact inf_pattern n1 h1 (by assumption)
        · rcases hI with hi | hi
          · exact absurd hi (by assumption)
          · exact inf_pattern n2 h2 hi
      · push_neg at hC hI
        have hns : nonspecialA n1 n2 := ⟨hC.1, hC.2.1, hI.1, hI.2⟩
        rw [add_model_eq_arith n1 n2 hns]
        rcases eq_or_ne (final_mant0 n1 n2) 0 with h0 | h0
        · rw [addArith_zero_case n1 n2 h0]
          simp
        · rcases lt_or_le (fe_final n1 n2) 31 with hfe | hfe
          · rw [addArith_pack_case n1 n2 h0 hfe]
            simp
          · rw [addArith_overflow_case n1 n2 h0 hfe]
            simp only [Bool.false_eq_true, false_implies, true_implies, and_false,
              not_false_iff, and_true, true_and]
            exact sign_inf_pattern _ (sign_big_le n1 n2)
  have hmul : ((fp16_mul_bittrue n1 n2).nan = true → (fp16_mul_bittrue n1 n2).res = 0x7FFF) ∧
      ((fp16_mul_bittrue n1 n2).overflow = true →
        (fp16_mul_bittrue n1 n2).res = 0x7C00 ∨ (fp16_mul_bittrue n1 n2).res = 0xFC00) ∧
      (¬ ((fp16_mul_bittrue n1 n2).overflow = true ∧ (fp16_mul_bittrue n1 n2).zero = true)) := by
    by_cases hN : is_nan n1 ∨ is_nan n2
    · rw [mul_model_nan_case n1 n2 hN]
      simp
    · by_cases hInd : (is_inf n1 ∧ is_zero n2) ∨ (is_inf n2 ∧ is_zero n1)
      · rw [mul_model_indet_case n1 n2 hN hInd]
        simp
      · by_cases hI : is_inf n1 ∨ is_inf n2
        · rw [mul_model_inf_case n1 n2 hN hInd hI]
          simp only [Bool.false_eq_true, false_implies, true_implies, and_false,
            not_false_iff, and_true, true_and]
          exact sign_inf_pattern _ (s_res_le n1 n2)
        · by_cases hZ : is_zero n1 ∨ is_zero n2
          · rw [mul_model_zero_case n1 n2 hN hInd hI hZ]
            simp
          · push_neg at hN hI hZ
            have hns : nonspecialM n1 n2 := ⟨⟨hN.1, hN.2, hI.1, hI.2⟩, hZ.1, hZ.2⟩
            rw [mul_model_eq_arith n1 n2 hns]
            rcases lt_or_le (exp_norm n1 n2) (-10) with h | h
            · rw [mulArith_flush_case n1 n2 h]
              simp
            · rcases le_or_lt (exp_norm n1 n2) 0 with hle | hlt
              · rw [mulArith_denorm_case n1 n2 hle h]
                simp
              · rcases lt_or_le (exp_norm n1 n2) 31 with h31 | h31
                · rw [mulArith_norm_case n1 n2 hlt h31]
                  simp
                · rw [mulArith_overflow_case n1 n2 h31]
                  simp only [Bool.false_eq_true, false_implies, true_implies, and_false,
                    not_false_iff, and_true, true_and]
                  exact sign_inf_pattern _ (s_res_le n1 n2)
  exact ⟨hadd.1, hadd.2.1, hadd.2.2, hmul.1, hmul.2.1, hmul.2.2⟩

/-- C2 witness: instantiation at `(0x7C00, 0x3C00)` (overflow flag set). -/
theorem C2_flag_pattern_invariants_witness :
    (fp16_add_model 0x7C00 0x3C00).res = 0x7C00 ∨
    (fp16_add_model 0x7C00 0x3C00).res = 0xFC00 :=
  (C2_flag_pattern_invariants 0x7C00 0x3C00 (by decide) (by decide)).2.1 (by decide)

end FP16

namespace FP16

theorem zero_sign_cond_iff (n1 n2 : Nat) :
    (sign_big n1 n2 = sign_sml n1 n2 ∧ sign_big n1 n2 = 1) ↔
      (sgn n1 = 1 ∧ sgn n2 = 1) := by
  cases hs : swapB n1 n2 with
  | true =>
    obtain ⟨hsb, -, -, hss, -, -⟩ := big_sml_true n1 n2 hs
    rw [hsb, hss]
    omega
  | false =>
    obtain ⟨hsb, -, -, hss, -, -⟩ := big_sml_false n1 n2 hs
    rw [hsb, hss]
    omega

/-- C5: in `add`, when the combined significand of two non-special operands
is exactly 0, the result is a signed zero with the zero flag set; the sign
is negative (`0x8000`) only when both operands were negative, so
opposite-sign cancellation always gives `+0`; the precision-lost flag still
reflects bits dropped by the alignment shift; and
`add(0x3C00, 0xBC00) = (0x0000, zero)`. -/
theorem C5_exact_cancellation (n1 n2 : Nat) (hns : nonspecialA n1 n2)
    (h0 : final_mant0 n1 n2 = 0) :
    (fp16_add_model n1 n2).zero = true ∧
    (fp16_add_model n1 n2).overflow = false ∧
    (fp16_add_model n1 n2).nan = false ∧
    ((fp16_add_model n1 n2).res = if sgn n1 = 1 ∧ sgn n2 = 1 then 0x8000 else 0x0000) ∧
    (sgn n1 ≠ sgn n2 → (fp16_add_model n1 n2).res = 0x0000) ∧
    ((fp16_add_model n1 n2).precision_lost = true ↔ bits_lost n1 n2 ≠ 0) ∧
    fp16_add_model 0x3C00 0xBC00 = ⟨0x0000, false, true, false, false⟩ := by
  rw [add_model_eq_arith n1 n2 hns, addArith_zero_case n1 n2 h0]
  refine ⟨rfl, rfl, rfl, ?_, ?_, by simp, by decide⟩
  · dsimp only
    rw [if_congr (zero_sign_cond_iff n1 n2) rfl rfl]
  · intro hne
    dsimp only
    have hnc : ¬ (sign_big n1 n2 = sign_sml n1 n2 ∧ sign_big n1 n2 = 1) := by
      rw [zero_sign_cond_iff n1 n2]
      have := sgn_le_one n1
      have := sgn_le_one n2
      omega
    rw [if_neg hnc]

/-- C5 witness: instantiation at `add(0x8000, 0x8000)` (−0 + −0). -/
theorem C5_exact_cancellation_witness :
    (fp16_add_model 0x8000 0x8000).zero = true :=
  (C5_exact_cancellation 0x8000 0x8000 (by decide) (by decide)).1

/-- C6: in `add`, the alignment shift zeroes the small significand and sets
the sticky indicator iff it was nonzero when `exp_diff ≥ 13`; otherwise it
shifts right by `exp_diff` with the sticky indicator computed from the
bits under the mask `2^exp_diff − 1`; and the returned precision-lost flag
is true exactly when the alignment shift or the renormalization right
shift discarded a nonzero bit. -/
theorem C6_alignment_shift (n1 n2 : Nat) (hns : nonspecialA n1 n2) :
    (13 ≤ exp_diff n1 n2 →
      mant_sml_shifted n1 n2 = 0 ∧ (bits_lost n1 n2 ≠ 0 ↔ mant_sml n1 n2 ≠ 0)) ∧
    (exp_diff n1 n2 < 13 →
      mant_sml_shifted n1 n2 = mant_sml n1 n2 >>> exp_diff n1 n2 ∧
      (bits_lost n1 n2 ≠ 0 ↔ mant_sml n1 n2 &&& (2 ^ exp_diff n1 n2 - 1) ≠ 0)) ∧
    ((fp16_add_model n1 n2).precision_lost = true ↔
      (bits_lost n1 n2 ≠ 0 ∨
        (2048 ≤ final_mant0 n1 n2 ∧ final_mant0 n1 n2 &&& 1 = 1))) := by
  refine ⟨?_, ?_, ?_⟩
  · intro h13
    unfold mant_sml_shifted bits_lost
    rw [if_pos (by omega : 11 + 2 ≤ exp_diff n1 n2),
      if_pos (by omega : 11 + 2 ≤ exp_diff n1 n2)]
    refine ⟨rfl, ?_⟩
    split <;> simp_all
  · intro h13
    unfold mant_sml_shifted bits_lost
    rw [if_neg (by omega : ¬ 11 + 2 ≤ exp_diff n1 n2),
      if_neg (by omega : ¬ 11 + 2 ≤ exp_diff n1 n2)]
    refine ⟨rfl, ?_⟩
    rw [Nat.shiftLeft_eq, one_mul]
  · rw [add_model_eq_arith n1 n2 hns]
    rcases eq_or_ne (final_mant0 n1 n2) 0 with h0 | h0
    · rw [addArith_zero_case n1 n2 h0, h0]
      simp
    · have hb : (decide (bits_lost_final n1 n2 ≠ 0) = true) ↔
          (bits_lost n1 n2 ≠ 0 ∨
            (2048 ≤ final_mant0 n1 n2 ∧ final_mant0 n1 n2 &&& 1 = 1)) := by
        unfold bits_lost_final
        split
        · rename_i hcond
          constructor
          · intro _
            right
            exact hcond
          · intro _
            decide
        · rename_i hcond
          constructor
          · intro hd
            left
            simpa using hd
          · intro hor
            rcases hor with h | h
            · simpa using h
            · exact absurd h hcond
      rcases lt_or_le (fe_final n1 n2) 31 with hfe | hfe
      · rw [addArith_pack_case n1 n2 h0 hfe]
        exact hb
      · rw [addArith_overflow_case n1 n2 h0 hfe]
        exact hb

/-- C6 witness: instantiation at `add(0x3C00, 0x3C00)` (`exp_diff = 0`). -/
theorem C6_alignment_shift_witness :
    mant_sml_shifted 0x3C00 0x3C00 = mant_sml 0x3C00 0x3C00 >>> exp_diff 0x3C00 0x3C00 :=
  ((C6_alignment_shift 0x3C00 0x3C00 (by decide)).2.1 (by decide)).1

/-- C9: in `add`, for non-special operands with differing signs the
combined significand is the subtraction `big − small_shifted`, which never
goes below zero because the big operand is selected by exponent first and
significand second. -/
theorem C9_subtract_nonneg (n1 n2 : Nat) (_hns : nonspecialA n1 n2)
    (hsign : sign_big n1 n2 ≠ sign_sml n1 n2) :
    mant_res_signed n1 n2 = (mant_big n1 n2 : Int) - (mant_sml_shifted n1 n2 : Int) ∧
    mant_sml_shifted n1 n2 ≤ mant_big n1 n2 ∧
    0 ≤ mant_res_signed n1 n2 := by
  refine ⟨?_, shifted_le_mant_big n1 n2, mant_res_nonneg n1 n2⟩
  unfold mant_res_signed
  rw [if_neg hsign]

/-- C9 witness: instantiation at `add(0x3C00, 0xBC00)` (1.0 + −1.0). -/
theorem C9_subtract_nonneg_witness : 0 ≤ mant_res_signed 0x3C00 0xBC00 :=
  (C9_subtract_nonneg 0x3C00 0xBC00 (by decide) (by decide)).2.2

/-- C10: in `multiply`, for non-special operands the underflow flag is set
exactly on the flush-to-zero path (normalized result exponent < −10); for
result exponents in [−10, 0] the product is denormalized and packed but the
underflow flag stays false. -/
theorem C10_underflow_only_flush (n1 n2 : Nat) (hns : nonspecialM n1 n2) :
    ((fp16_mul_bittrue n1 n2).underflow = true ↔ exp_norm n1 n2 < -10) ∧
    (-10 ≤ exp_norm n1 n2 → exp_norm n1 n2 ≤ 0 →
      (fp16_mul_bittrue n1 n2).underflow = false ∧
      (fp16_mul_bittrue n1 n2).res = mul_pack_denorm n1 n2) := by
  rw [mul_model_eq_arith n1 n2 hns]
  rcases lt_or_le (exp_norm n1 n2) (-10) with h | h
  · rw [mulArith_flush_case n1 n2 h]
    refine ⟨iff_of_true rfl h, ?_⟩
    intro h1 _
    omega
  · rcases le_or_lt (exp_norm n1 n2) 0 with hle | hlt
    · rw [mulArith_denorm_case n1 n2 hle h]
      refine ⟨iff_of_false (by simp) (by omega), ?_⟩
      intro _ _
      exact ⟨rfl, rfl⟩
    · rcases lt_or_le (exp_norm n1 n2) 31 with h31 | h31
      · rw [mulArith_norm_case n1 n2 hlt h31]
        refine ⟨iff_of_false (by simp) (by omega), ?_⟩
        intro _ h2
        omega
      · rw [mulArith_overflow_case n1 n2 h31]
        refine ⟨iff_of_false (by simp) (by omega), ?_⟩
        intro _ h2
        omega

/-- C10 witness: instantiation at `multiply(0x0001, 0x0001)` (underflow). -/
theorem C10_underflow_only_flush_witness :
    (fp16_mul_bittrue 0x0001 0x0001).underflow = true :=
  ((C10_underflow_only_flush 0x0001 0x0001 (by decide)).1).mpr (by decide)

end FP16

namespace FP16

theorem and_bit21_eq_zero_iff (m : Nat) (hm : m < 2 ^ 22) :
    m &&& 0x200000 = 0 ↔ m < 2 ^ 21 := by
  rw [show (0x200000 : Nat) = 2 ^ 21 from rfl, Nat.and_two_pow]
  constructor
  · intro h
    have ht : m.testBit 21 = false := by
      rcases Bool.eq_false_or_eq_true (m.testBit 21) with hb | hb
      · rw [hb] at h
        simp at h
      · exact hb
    rw [Nat.testBit_to_div_mod] at ht
    simp at ht
    omega
  · intro h
    rw [Nat.testBit_lt_two_pow h]
    simp

/-- C4 counterexample: the subnormal operand `0x0001` times `1.0` reaches
the normal arithmetic path (neither operand NaN, infinite, or zero), bit 21
of the significand product is clear, and yet the product's leading bit is
far below position 20 (the product is `1 × 1024 < 2^20`). -/
theorem C4_counterexample :
    nonspecialM 0x0001 0x3C00 ∧
    mant_mult 0x0001 0x3C00 &&& 0x200000 = 0 ∧
    mant_mult 0x0001 0x3C00 < 2 ^ 20 := by
  decide

/-- C4 (amended): in `multiply`, for operands on the normal arithmetic path
that are moreover both normal numbers (nonzero exponent field), the 22-bit
significand product satisfies: if bit 21 is set the product is shifted
right by 1 and the exponent incremented, and otherwise the product has its
leading bit at position 20 (it lies in `[2^20, 2^21)`); subnormal operands
reach the same path with a smaller product, which is why the original claim
fails for them. -/
theorem C4_mul_normalization (n1 n2 : Nat) (_hns : nonspecialM n1 n2)
    (hn1 : expf n1 ≠ 0) (hn2 : expf n2 ≠ 0) :
    mant_mult n1 n2 < 2 ^ 22 ∧
    (mant_mult n1 n2 &&& 0x200000 ≠ 0 →
      mant_norm n1 n2 = mant_mult n1 n2 >>> 1 ∧ exp_norm n1 n2 = exp_res n1 n2 + 1) ∧
    (mant_mult n1 n2 &&& 0x200000 = 0 →
      mant_norm n1 n2 = mant_mult n1 n2 ∧ exp_norm n1 n2 = exp_res n1 n2 ∧
      2 ^ 20 ≤ mant_mult n1 n2 ∧ mant_mult n1 n2 < 2 ^ 21) := by
  have hm1 := mant_lt n1
  have hm2 := mant_lt n2
  have hl1 := le_mant n1 hn1
  have hl2 := le_mant n2 hn2
  have hub : mant_mult n1 n2 < 2 ^ 22 := by
    unfold mant_mult
    have := Nat.mul_le_mul (by omega : mant n1 ≤ 2047) (by omega : mant n2 ≤ 2047)
    omega
  have hlb : 2 ^ 20 ≤ mant_mult n1 n2 := by
    unfold mant_mult
    calc (2 ^ 20 : Nat) = 1024 * 1024 := by norm_num
    _ ≤ mant n1 * mant n2 := Nat.mul_le_mul hl1 hl2
  refine ⟨hub, ?_, ?_⟩
  · intro h
    unfold mant_norm exp_norm
    rw [if_pos h, if_pos h]
    exact ⟨rfl, rfl⟩
  · intro h
    unfold mant_norm exp_norm
    rw [if_neg (not_not_intro h), if_neg (not_not_intro h)]
    exact ⟨rfl, rfl, hlb, (and_bit21_eq_zero_iff _ hub).mp h⟩

/-- C4 witness: instantiation at `multiply(0x3C00, 0x3C00)` (1.0 × 1.0). -/
theorem C4_mul_normalization_witness : 2 ^ 20 ≤ mant_mult 0x3C00 0x3C00 :=
  ((C4_mul_normalization 0x3C00 0x3C00 (by decide) (by decide) (by decide)).2.2
    (by decide)).2.2.1

end FP16

namespace FP16

/-! ### Codec round-trip -/

theorem sgn32_eq (i : Nat) : sgn32 i = i / 2 ^ 31 % 2 := by
  unfold sgn32
  rw [Nat.shiftRight_eq_div_pow, Nat.and_one_is_mod]

theorem expf32_eq (i : Nat) : expf32 i = i / 2 ^ 23 % 256 := by
  unfold expf32
  rw [Nat.shiftRight_eq_div_pow, show (0xFF : Nat) = 2 ^ 8 - 1 from rfl,
    Nat.and_pow_two_sub_one_eq_mod]

theorem fracf32_eq (i : Nat) : fracf32 i = i % 2 ^ 23 := by
  unfold fracf32
  rw [show (0x7FFFFF : Nat) = 2 ^ 23 - 1 from rfl, Nat.and_pow_two_sub_one_eq_mod]

theorem pack32 (s e f : Nat) (he : e < 256) (hf : f < 2 ^ 23) :
    (s <<< 31) ||| (e <<< 23) ||| f = s * 2 ^ 31 + e * 2 ^ 23 + f := by
  have h1 : s <<< 31 = 2 ^ 31 * s := by
    rw [Nat.shiftLeft_eq]
    ring
  have h2 : e <<< 23 = 2 ^ 23 * e := by
    rw [Nat.shiftLeft_eq]
    ring
  have h3 : (2 ^ 31 * s) ||| (2 ^ 23 * e) = 2 ^ 31 * s + 2 ^ 23 * e :=
    lor_split 31 s (2 ^ 23 * e) (by omega)
  have h4 : 2 ^ 31 * s + 2 ^ 23 * e = 2 ^ 23 * (256 * s + e) := by ring
  have h5 : (2 ^ 23 * (256 * s + e)) ||| f = 2 ^ 23 * (256 * s + e) + f :=
    lor_split 23 (256 * s + e) f hf
  rw [h1, h2, h3, h4, h5]
  ring

theorem pack16 (s e f : Nat) (he : e < 32) (hf : f < 1024) :
    (s <<< 15) ||| (e <<< 10) ||| f = s * 2 ^ 15 + e * 2 ^ 10 + f := by
  have h1 : s <<< 15 = 2 ^ 15 * s := by
    rw [Nat.shiftLeft_eq]
    ring
  have h2 : e <<< 10 = 2 ^ 10 * e := by
    rw [Nat.shiftLeft_eq]
    ring
  have h3 : (2 ^ 15 * s) ||| (2 ^ 10 * e) = 2 ^ 15 * s + 2 ^ 10 * e :=
    lor_split 15 s (2 ^ 10 * e) (by omega)
  have h4 : 2 ^ 15 * s + 2 ^ 10 * e = 2 ^ 10 * (32 * s + e) := by ring
  have h5 : (2 ^ 10 * (32 * s + e)) ||| f = 2 ^ 10 * (32 * s + e) + f :=
    lor_split 10 (32 * s + e) f hf
  rw [h1, h2, h3, h4, h5]
  ring

/-- C3 counterexample: the NaN-class pattern `0x7C01` decodes to a float
NaN, which `float_to_fp16` canonicalizes to `0x7FFF ≠ 0x7C01`, so the
claimed round-trip fails on the NaN class. -/
theorem C3_counterexample :
    is_nan 0x7C01 ∧
    float_to_fp16 (fp16_to_float 0x7C01) = 0x7FFF ∧
    float_to_fp16 (fp16_to_float 0x7C01) ≠ 0x7C01 := by
  decide

/-- C3 (amended): for every 16-bit pattern in the normal, zero, or infinity
class, `encode(decode(p)) = p`; patterns in the NaN class are instead
canonicalized — `encode(decode(p)) = 0x7FFF` — so among NaNs only `0x7FFF`
itself round-trips (subnormals stay excluded as in the original claim). -/
theorem C3_roundtrip (p : Nat) (hp : p < 65536) :
    (¬ (expf p = 0 ∧ fracf p ≠ 0) → ¬ is_nan p →
      float_to_fp16 (fp16_to_float p) = p) ∧
    (is_nan p → float_to_fp16 (fp16_to_float p) = 0x7FFF) := by
  have hs := sgn_le_one p
  have he := expf_le p
  have hf := fracf_lt p
  have hdecomp : p = sgn p * 32768 + expf p * 1024 + fracf p := by
    rw [sgn_eq, expf_eq, fracf_eq]
    omega
  constructor
  · intro hnsub hnnan
    by_cases he0 : expf p = 0
    · -- zero class
      have hf0 : fracf p = 0 := by tauto
      unfold fp16_to_float
      rw [if_pos he0, if_pos hf0, Nat.shiftLeft_eq]
      unfold float_to_fp16
      have he32 : expf32 (sgn p * 2 ^ 31) = 0 := by
        rw [expf32_eq]
        omega
      have hm32 : fracf32 (sgn p * 2 ^ 31) = 0 := by
        rw [fracf32_eq]
        omega
      have hs32 : sgn32 (sgn p * 2 ^ 31) = sgn p := by
        rw [sgn32_eq]
        omega
      rw [if_neg (by rw [he32]; simp), if_neg (by rw [he32]; simp),
        if_pos ⟨he32, hm32⟩, hs32, Nat.shiftLeft_eq]
      omega
    · by_cases he31 : expf p = 31
      · -- infinity class
        have hf0 : fracf p = 0 := by
          by_contra hf0
          exact hnnan ⟨he31, hf0⟩
        unfold fp16_to_float
        rw [if_neg he0, if_pos he31, if_pos hf0]
        have hi : (sgn p <<< 31) ||| 0x7F800000 = sgn p * 2 ^ 31 + 255 * 2 ^ 23 := by
          rw [Nat.shiftLeft_eq, show sgn p * 2 ^ 31 = 2 ^ 31 * sgn p from by ring,
            lor_split 31 (sgn p) 0x7F800000 (by norm_num)]
          ring_nf
        rw [hi]
        unfold float_to_fp16
        have he32 : expf32 (sgn p * 2 ^ 31 + 255 * 2 ^ 23) = 255 := by
          rw [expf32_eq]
          omega
        have hm32 : fracf32 (sgn p * 2 ^ 31 + 255 * 2 ^ 23) = 0 := by
          rw [fracf32_eq]
          omega
        have hs32 : sgn32 (sgn p * 2 ^ 31 + 255 * 2 ^ 23) = sgn p := by
          rw [sgn32_eq]
          omega
        rw [if_neg (by rw [hm32]; simp), if_pos ⟨he32, hm32⟩, hs32]
        rw [Nat.shiftLeft_eq, show sgn p * 2 ^ 15 = 2 ^ 15 * sgn p from by ring,
          lor_split 15 (sgn p) 0x7C00 (by norm_num)]
        omega
      · -- normal class
        unfold fp16_to_float
        rw [if_neg he0, if_neg he31]
        have hfs : fracf p <<< 13 = fracf p * 2 ^ 13 := Nat.shiftLeft_eq _ _
        have hi : (sgn p <<< 31) ||| ((expf p + 112) <<< 23) ||| (fracf p <<< 13)
            = sgn p * 2 ^ 31 + (expf p + 112) * 2 ^ 23 + fracf p * 2 ^ 13 := by
          rw [hfs]
          exact pack32 _ _ _ (by omega) (by omega)
        rw [hi]
        unfold float_to_fp16
        have he32 : expf32 (sgn p * 2 ^ 31 + (expf p + 112) * 2 ^ 23 + fracf p * 2 ^ 13)
            = expf p + 112 := by
          rw [expf32_eq]
          omega
        have hm32 : fracf32 (sgn p * 2 ^ 31 + (expf p + 112) * 2 ^ 23 + fracf p * 2 ^ 13)
            = fracf p * 2 ^ 13 := by
          rw [fracf32_eq]
          omega
        have hs32 : sgn32 (sgn p * 2 ^ 31 + (expf p + 112) * 2 ^ 23 + fracf p * 2 ^ 13)
            = sgn p := by
          rw [sgn32_eq]
          omega
        rw [if_neg (by rw [he32]; omega : ¬ (expf32 (sgn p * 2 ^ 31 + (expf p + 112) * 2 ^ 23 +
              fracf p * 2 ^ 13) = 255 ∧ fracf32 (sgn p * 2 ^ 31 + (expf p + 112) * 2 ^ 23 +
              fracf p * 2 ^ 13) ≠ 0)),
          if_neg (by rw [he32]; omega : ¬ (expf32 (sgn p * 2 ^ 31 + (expf p + 112) * 2 ^ 23 +
              fracf p * 2 ^ 13) = 255 ∧ fracf32 (sgn p * 2 ^ 31 + (expf p + 112) * 2 ^ 23 +
              fracf p * 2 ^ 13) = 0)),
          if_neg (by rw [he32]; omega : ¬ (expf32 (sgn p * 2 ^ 31 + (expf p + 112) * 2 ^ 23 +
              fracf p * 2 ^ 13) = 0 ∧ fracf32 (sgn p * 2 ^ 31 + (expf p + 112) * 2 ^ 23 +
              fracf p * 2 ^ 13) = 0))]
        dsimp only
        rw [he32, hs32, hm32]
        rw [if_neg (by omega : ¬ ((((expf p + 112 : Nat) : Int) - 127) + 15 ≤ 0)),
          if_neg (by omega : ¬ (31 ≤ (((expf p + 112 : Nat) : Int) - 127) + 15))]
        have ht : ((((expf p + 112 : Nat) : Int) - 127) + 15).toNat = expf p := by omega
        have hshr : (fracf p * 2 ^ 13) >>> 13 = fracf p := by
          rw [Nat.shiftRight_eq_div_pow]
          omega
        rw [ht, hshr, pack16 _ _ _ (by omega) hf]
        omega
  · intro hnan
    obtain ⟨he31, hfne⟩ := hnan
    unfold fp16_to_float
    rw [if_neg (by omega : ¬ expf p = 0), if_pos he31, if_neg hfne]
    decide

/-- C3 witness: instantiation at the normal pattern `0x3C00` (1.0). -/
theorem C3_roundtrip_witness : float_to_fp16 (fp16_to_float 0x3C00) = 0x3C00 :=
  (C3_roundtrip 0x3C00 (by decide)).1 (by decide) (by decide)

end FP16
